import Mathlib

/-!
# Verification of the portfolio-chat retrieval-and-grounding engine

Shallow embedding of `src/services/ragService.js` (class `RAGChatService`) and
proofs of the behavioural claims stated in the specification.

Conventions used throughout:
* JavaScript values that may be `undefined`/`null` are modelled with `Option`.
* JavaScript truthiness on strings (`"" `is falsy) is modelled by `jsTruthy`.
* Numeric similarity scores are modelled over an arbitrary linear ordered field
  (instantiated at `ℚ` for executable witnesses and at `ℝ` where the source
  uses `Math.sqrt`).  IEEE-754 rounding is idealised away; no claim below
  depends on rounding behaviour.
* `Array.prototype.sort` with comparator `(a, b) => b.similarity - a.similarity`
  is a stable sort (ES2019); it is modelled by a stable insertion sort on the
  descending order of scores.
-/

namespace PortfolioChat

/-- JS truthiness of a possibly-absent string: `undefined`, `null` and `""`
are falsy, every other string is truthy. -/
def jsTruthy : Option String → Bool
  | none => false
  | some s => !(s == "")

/-- JS `a || b` on possibly-absent strings. -/
def jsOr (a b : Option String) : Option String :=
  if jsTruthy a then a else b

/-- JS `s || d` for a plain string with a non-empty default. -/
def jsOrStr (s : Option String) (d : String) : String :=
  match s with
  | none => d
  | some s => if s == "" then d else s

/-- JS truthiness of a possibly-absent number (`undefined` and `0` are falsy). -/
def jsTruthyNat : Option Nat → Bool
  | none => false
  | some n => !(n == 0)

/-- One entry of `meta.json`'s `items` array (a `ChunkRecord`). -/
structure ChunkItem where
  repo : Option String
  project_name : Option String
  file_path : Option String
  start_line : Option Nat
  end_line : Option Nat
  text_offset : Nat
  text_length : Nat
deriving DecidableEq, Inhabited

/-- Model of `items[i].repo || items[i].project_name` — the repo name of a chunk as the
code computes it (`retrieveTopK`, `buildProjectAliases`, `formatChunks`). -/
def itemRepo (it : ChunkItem) : Option String :=
  jsOr it.repo it.project_name

/-- One similarity hit `{ index, similarity }` produced by `retrieveTopK`. -/
structure Hit (α : Type) where
  index : Nat
  similarity : α
deriving DecidableEq

variable {α : Type} [LinearOrderedField α]

/-- The inner dot-product loop of `retrieveTopK`:
`for j in [0,dim): sim += queryVector[j] * vectors[vectorStart + j]`. -/
def simAt (queryVector vectors : Nat → α) (dim vectorStart : Nat) : α :=
  (List.range dim).foldl (fun sim j => sim + queryVector j * vectors (vectorStart + j)) 0

/-- Model of `dotProduct(a, b)` from the source (dot product of two equal-length vectors). -/
def dotProduct (a b : List α) : α :=
  (List.range a.length).foldl (fun sum i => sum + a.getD i 0 * b.getD i 0) 0

/-- The filter test of `retrieveTopK`: a chunk survives unless
`repoFilter` is truthy and differs from the chunk's repo
(`if (repoFilter && itemRepo !== repoFilter) continue`). -/
def passesRepoFilter (repoFilter : Option String) (it : ChunkItem) : Bool :=
  !(jsTruthy repoFilter) || (itemRepo it == repoFilter)

/-- The unsorted `similarities` list built by the scan loop of `retrieveTopK`:
one hit per surviving chunk index, in index order.  Chunks failing the repo
filter are skipped before any score is computed.  (An index `i < count` with
no `items[i]` would throw in JS; it is modelled as skipped and is unreachable
whenever the load-time invariant `items.length == count` holds.) -/
def scoredHits (count dim : Nat) (items : List ChunkItem) (vectors queryVector : Nat → α)
    (repoFilter : Option String) : List (Hit α) :=
  (List.range count).filterMap (fun i =>
    (items[i]?).bind (fun it =>
      if passesRepoFilter repoFilter it then
        some ⟨i, simAt queryVector vectors dim (i * dim)⟩
      else
        none))

/-- Stable descending insertion: place `h` before the first element whose
similarity is `≤ h.similarity`.  For an element arriving from earlier in the
original list this is exactly what a stable sort with comparator
`(a, b) => b.similarity - a.similarity` does. -/
def insertHit (h : Hit α) : List (Hit α) → List (Hit α)
  | [] => [h]
  | h' :: t => if h'.similarity ≤ h.similarity then h :: h' :: t else h' :: insertHit h t

/-- Stable sort of the hit list by similarity descending
(`similarities.sort((a, b) => b.similarity - a.similarity)`). -/
def sortHits : List (Hit α) → List (Hit α)
  | [] => []
  | h :: t => insertHit h (sortHits t)

/-- Model of `retrieveTopK(queryVector, { repoFilter, k })`: score all surviving chunks,
sort by similarity descending (stable), return the first `k`
(`similarities.slice(0, k)`). -/
def retrieveTopK (count dim : Nat) (items : List ChunkItem) (vectors : Nat → α)
    (queryVector : Nat → α) (repoFilter : Option String) (k : Nat := 10) : List (Hit α) :=
  (sortHits (scoredHits count dim items vectors queryVector repoFilter)).take k

/-- The deterministic output order of the search: strictly greater similarity
first, ties by original chunk index ascending. -/
def HitBefore (a b : Hit α) : Prop :=
  b.similarity < a.similarity ∨ (a.similarity = b.similarity ∧ a.index < b.index)

theorem mem_insertHit {h x : Hit α} {l : List (Hit α)} :
    x ∈ insertHit h l ↔ x = h ∨ x ∈ l := by
  induction l with
  | nil => simp [insertHit]
  | cons h' t ih =>
    by_cases hc : h'.similarity ≤ h.similarity
    · simp [insertHit, hc]
    · simp only [insertHit, if_neg hc, List.mem_cons, ih]
      tauto

theorem mem_sortHits {x : Hit α} {l : List (Hit α)} :
    x ∈ sortHits l ↔ x ∈ l := by
  induction l with
  | nil => simp [sortHits]
  | cons h t ih => simp [sortHits, mem_insertHit, ih]

theorem length_insertHit (h : Hit α) (l : List (Hit α)) :
    (insertHit h l).length = l.length + 1 := by
  induction l with
  | nil => simp [insertHit]
  | cons h' t ih =>
    by_cases hc : h'.similarity ≤ h.similarity <;> simp [insertHit, hc, ih]

theorem length_sortHits (l : List (Hit α)) : (sortHits l).length = l.length := by
  induction l with
  | nil => rfl
  | cons h t ih => simp [sortHits, length_insertHit, ih]

theorem insertHit_pairwise {h : Hit α} {l : List (Hit α)}
    (hl : l.Pairwise HitBefore) (hidx : ∀ y ∈ l, h.index < y.index) :
    (insertHit h l).Pairwise HitBefore := by
  induction l with
  | nil => simp [insertHit, List.Pairwise]
  | cons h' t ih =>
    rcases List.pairwise_cons.mp hl with ⟨hh't, ht⟩
    by_cases hc : h'.similarity ≤ h.similarity
    · rw [insertHit, if_pos hc]
      refine List.pairwise_cons.mpr ⟨?_, hl⟩
      intro y hy
      rcases List.mem_cons.mp hy with hy' | hy'
      · subst hy'
        rcases lt_or_eq_of_le hc with hlt | heq
        · exact Or.inl hlt
        · exact Or.inr ⟨heq.symm, hidx y (by simp)⟩
      · rcases hh't y hy' with hb | hb
        · rcases lt_or_eq_of_le hc with hlt | heq
          · exact Or.inl (hb.trans hlt)
          · exact Or.inl (heq ▸ hb)
        · rcases lt_or_eq_of_le hc with hlt | heq
          · exact Or.inl (hb.1 ▸ hlt)
          · exact Or.inr ⟨heq.symm.trans hb.1, hidx y hy⟩
    · rw [insertHit, if_neg hc]
      refine List.pairwise_cons.mpr ⟨?_, ih ht (fun y hy => hidx y (List.mem_cons_of_mem _ hy))⟩
      intro y hy
      rcases mem_insertHit.mp hy with hy' | hy'
      · subst hy'
        exact Or.inl (lt_of_not_le hc)
      · exact hh't y hy'

theorem sortHits_pairwise {l : List (Hit α)}
    (hl : l.Pairwise (fun a b => a.index < b.index)) :
    (sortHits l).Pairwise HitBefore := by
  induction l with
  | nil => simp [sortHits]
  | cons h t ih =>
    rcases List.pairwise_cons.mp hl with ⟨hht, ht⟩
    exact insertHit_pairwise (ih ht) (fun y hy => hht y (mem_sortHits.mp hy))

theorem scoredHits_some_index {dim : Nat} {items : List ChunkItem}
    {vectors queryVector : Nat → α} {repoFilter : Option String} {i : Nat} {x : Hit α}
    (h : ((items[i]?).bind (fun it =>
          if passesRepoFilter repoFilter it then
            some (⟨i, simAt queryVector vectors dim (i * dim)⟩ : Hit α)
          else
            none)) = some x) : x.index = i := by
  cases hg : items[i]? with
  | none => rw [hg] at h; exact absurd h (by simp)
  | some it =>
    rw [hg, Option.some_bind] at h
    by_cases hp : passesRepoFilter repoFilter it
    · rw [if_pos hp] at h
      cases h
      rfl
    · rw [if_neg hp] at h
      exact absurd h (by simp)

theorem scoredHits_index_pairwise (count dim : Nat) (items : List ChunkItem)
    (vectors queryVector : Nat → α) (repoFilter : Option String) :
    (scoredHits count dim items vectors queryVector repoFilter).Pairwise
      (fun a b => a.index < b.index) := by
  unfold scoredHits
  refine List.pairwise_filterMap.mpr ?_
  refine (List.pairwise_lt_range count).imp ?_
  intro a b hab x hx y hy
  have hxa : x.index = a := scoredHits_some_index hx
  have hyb : y.index = b := scoredHits_some_index hy
  rw [hxa, hyb]
  exact hab

/-- C1: `retrieveTopK` returns at most `k` hits, sorted by non-increasing
similarity, and the output order is deterministic: among hits of equal
similarity the one with the smaller original chunk index comes first
(first-seen wins, by stability of the sort).  `retrieveTopK` is a pure
function of its inputs, so identical inputs give identical output. -/
theorem retrieveTopK_sorted_deterministic (count dim : Nat) (items : List ChunkItem)
    (vectors queryVector : Nat → α) (repoFilter : Option String) (k : Nat) :
    (retrieveTopK count dim items vectors queryVector repoFilter k).length ≤ k ∧
    (retrieveTopK count dim items vectors queryVector repoFilter k).Pairwise
      (fun a b => b.similarity ≤ a.similarity) ∧
    (retrieveTopK count dim items vectors queryVector repoFilter k).Pairwise
      (fun a b => a.similarity = b.similarity → a.index < b.index) := by
  have hpw : (sortHits (scoredHits count dim items vectors queryVector repoFilter)).Pairwise
      (HitBefore (α := α)) :=
    sortHits_pairwise (scoredHits_index_pairwise count dim items vectors queryVector repoFilter)
  have htake : (retrieveTopK count dim items vectors queryVector repoFilter k).Pairwise
      (HitBefore (α := α)) :=
    hpw.sublist (List.take_sublist k _)
  refine ⟨?_, ?_, ?_⟩
  · exact List.length_take_le k _
  · exact htake.imp (fun hab => hab.elim (fun h => le_of_lt h) (fun h => le_of_eq h.1.symm))
  · exact htake.imp (fun hab heq => hab.elim
      (fun h => absurd heq (by intro he; exact absurd (he ▸ h) (lt_irrefl _)))
      (fun h => h.2))

/-- Whether chunk `i` belongs to project `scope` as `retrieveTopK` sees it. -/
def scopedMatch (items : List ChunkItem) (scope : String) (i : Nat) : Bool :=
  match items[i]? with
  | none => false
  | some it => itemRepo it == some scope

theorem length_filterMap_eq_countP {β γ : Type} (f : β → Option γ) (l : List β) :
    (l.filterMap f).length = l.countP (fun x => (f x).isSome) := by
  induction l with
  | nil => rfl
  | cons a t ih =>
    cases hf : f a <;>
      simp [List.filterMap_cons, hf, List.countP_cons, ih]

theorem jsTruthy_some_of_ne {scope : String} (hs : scope ≠ "") :
    jsTruthy (some scope) = true := by
  simp [jsTruthy, hs]

theorem mem_scoredHits_scoped {count dim : Nat} {items : List ChunkItem}
    {vectors queryVector : Nat → α} {scope : String} {x : Hit α} (hs : scope ≠ "")
    (hx : x ∈ scoredHits count dim items vectors queryVector (some scope)) :
    scopedMatch items scope x.index = true := by
  unfold scoredHits at hx
  rcases List.mem_filterMap.mp hx with ⟨i, _, hf⟩
  have hidx : x.index = i := scoredHits_some_index hf
  cases hg : items[i]? with
  | none => rw [hg] at hf; exact absurd hf (by simp)
  | some it =>
    rw [hg, Option.some_bind] at hf
    by_cases hp : passesRepoFilter (some scope) it
    · have hrep : (itemRepo it == some scope) = true := by
        have hp' := hp
        unfold passesRepoFilter at hp'
        rw [jsTruthy_some_of_ne hs] at hp'
        simpa using hp'
      subst hidx
      simp [scopedMatch, hg, hrep]
    · rw [if_neg hp] at hf
      exact absurd hf (by simp)

/-- C2: For every query vector and every (non-empty, hence JS-truthy)
requested scope, every hit returned by the scoped search refers to a chunk
whose repo equals the scope, and the number of returned hits is
`min k (number of matching chunks)`: chunks whose repo differs (or is absent)
are skipped before scoring and do not count toward `k`. -/
theorem retrieveTopK_scoped (count dim : Nat) (items : List ChunkItem)
    (vectors queryVector : Nat → α) (scope : String) (k : Nat) (hs : scope ≠ "") :
    (retrieveTopK count dim items vectors queryVector (some scope) k).all
      (fun hit => scopedMatch items scope hit.index) = true ∧
    (retrieveTopK count dim items vectors queryVector (some scope) k).length =
      min k ((List.range count).countP (scopedMatch items scope)) := by
  constructor
  · refine List.all_eq_true.mpr ?_
    intro hit hmem
    exact mem_scoredHits_scoped hs (mem_sortHits.mp (List.mem_of_mem_take hmem))
  · rw [retrieveTopK, List.length_take, length_sortHits]
    congr 1
    rw [scoredHits, length_filterMap_eq_countP]
    congr 1
    funext i
    cases hg : items[i]? with
    | none => simp [scopedMatch, hg]
    | some it =>
      by_cases hp : passesRepoFilter (some scope) it
      · have hrep : (itemRepo it == some scope) = true := by
          have hp' := hp
          unfold passesRepoFilter at hp'
          rw [jsTruthy_some_of_ne hs] at hp'
          simpa using hp'
        simp [scopedMatch, hg, hp, hrep]
      · have hrep : (itemRepo it == some scope) = false := by
          have hp' := hp
          unfold passesRepoFilter at hp'
          rw [jsTruthy_some_of_ne hs] at hp'
          simpa using hp'
        simp [scopedMatch, hg, hp, hrep]

/-- Witness for C2 at a concrete input: a two-chunk index with repos
`"alpha"` and `"beta"`, scoped to `"alpha"`. -/
theorem retrieveTopK_scoped_witness :
    ("alpha" : String) ≠ "" ∧
    ((retrieveTopK (α := ℚ) 2 1
        [⟨some "alpha", none, none, none, none, 0, 4⟩,
         ⟨some "beta", none, none, none, none, 4, 4⟩]
        (fun _ => 1) (fun _ => 1) (some "alpha") 10).all
      (fun hit => scopedMatch
        [⟨some "alpha", none, none, none, none, 0, 4⟩,
         ⟨some "beta", none, none, none, none, 4, 4⟩] "alpha" hit.index) = true ∧
    (retrieveTopK (α := ℚ) 2 1
        [⟨some "alpha", none, none, none, none, 0, 4⟩,
         ⟨some "beta", none, none, none, none, 4, 4⟩]
        (fun _ => 1) (fun _ => 1) (some "alpha") 10).length =
      min 10 ((List.range 2).countP (scopedMatch
        [⟨some "alpha", none, none, none, none, 0, 4⟩,
         ⟨some "beta", none, none, none, none, 4, 4⟩] "alpha"))) :=
  ⟨by decide, retrieveTopK_scoped 2 1
    [⟨some "alpha", none, none, none, none, 0, 4⟩,
     ⟨some "beta", none, none, none, none, 4, 4⟩]
    (fun _ => 1) (fun _ => 1) "alpha" 10 (by decide)⟩

/-! ## Project detection (`normalizeText`, `detectProjectContext`)

The heuristic tier of project-scope detection.  The alias table is an
insertion-ordered association list (a JS `Map` iterates in insertion order);
token sets are modelled as first-occurrence-deduplicated lists (`new Set`). -/

/-- JS `\s` whitespace characters (the ASCII ones plus NBSP; the remaining
Unicode space characters never appear in the inputs considered here). -/
def isJsSpace (c : Char) : Bool :=
  c == ' ' || c == '\t' || c == '\n' || c == '\r' ||
    c == Char.ofNat 11 || c == Char.ofNat 12 || c == Char.ofNat 160

/-- Collapse runs of whitespace to a single space (`.replace(/\s+/g, ' ')`);
`prevSpace` records whether the previous kept character closed a run. -/
def collapseSpacesAux (prevSpace : Bool) : List Char → List Char
  | [] => []
  | c :: t =>
    if isJsSpace c then
      if prevSpace then collapseSpacesAux true t
      else ' ' :: collapseSpacesAux true t
    else c :: collapseSpacesAux false t

/-- Model of `.trim()`: strip leading and trailing whitespace. -/
def trimChars (l : List Char) : List Char :=
  ((l.dropWhile isJsSpace).reverse.dropWhile isJsSpace).reverse

/-- Model of `normalizeText(text)`: lowercase, turn `_`/`-` into spaces, drop everything
but `a-z`, `0-9` and whitespace, collapse whitespace, trim. -/
def normalizeText (text : String) : String :=
  let lowered := text.toList.map Char.toLower
  let dashes := lowered.map (fun c => if c == '_' || c == '-' then ' ' else c)
  let kept := dashes.filter (fun c =>
    ('a' ≤ c && c ≤ 'z') || ('0' ≤ c && c ≤ '9') || isJsSpace c)
  String.mk (trimChars (collapseSpacesAux false kept))

/-- Model of `s.split(' ')`: cut at every single space character. -/
def splitOnSpaceAux (cur : List Char) : List Char → List String
  | [] => [String.mk cur.reverse]
  | c :: t =>
    if c == ' ' then String.mk cur.reverse :: splitOnSpaceAux [] t
    else splitOnSpaceAux (c :: cur) t

/-- Model of `normalizedMsg.split(' ').filter(t => t.length > 0)`. -/
def splitTokens (s : String) : List String :=
  (splitOnSpaceAux [] s.toList).filter (fun t => t.length > 0)

/-- Model of `new Set(list)` keeping first occurrences, as a list. -/
def dedupAux (seen : List String) : List String → List String
  | [] => []
  | x :: t => if seen.contains x then dedupAux seen t else x :: dedupAux (x :: seen) t

def dedup (l : List String) : List String := dedupAux [] l

/-- JS `String.prototype.includes` (substring containment). -/
def strContainsAux (needle : List Char) : List Char → Bool
  | [] => needle.isEmpty
  | c :: t => needle.isPrefixOf (c :: t) || strContainsAux needle t

def strContains (s sub : String) : Bool :=
  strContainsAux sub.toList s.toList

/-- Model of `Number.prototype.toFixed(2)` for the Jaccard scores used here
(rationals in `[0, 1]`): round to the nearest multiple of `1/100`, halves up
(`n = ⌊q·100 + 1/2⌋ = (200·num + den) / (2·den)` for `q ≥ 0`), printed with
two decimals. -/
def toFixed2 (q : ℚ) : String :=
  let n := ((q.num * 200 + q.den) / (2 * q.den)).toNat
  toString (n / 100) ++ "." ++
    (if n % 100 < 10 then "0" ++ toString (n % 100) else toString (n % 100))

/-- One resume project entry (the fields `detectProjectContext` and the
prompts read). -/
structure Project where
  title : Option String
  repo_name : Option String
deriving DecidableEq, Inhabited

/-- The candidate-accumulation state of the alias loop:
`(bestMatch, bestScore, matchReason)`. -/
def detectStep (normalizedMsg : String) (msgTokens : List String)
    (st : Option String × ℚ × String) (entry : String × String) :
    Option String × ℚ × String :=
  let aliasStr := entry.1
  let repoName := entry.2
  if strContains normalizedMsg aliasStr then
    -- Exact inclusion branch; the replacement condition compares the alias
    -- length with the length of the previous *decorated* match reason.
    if st.1.isNone || aliasStr.length > st.2.2.length then
      (some repoName, 1, "exact match: \"" ++ aliasStr ++ "\"")
    else
      st
  else
    let aliasTokens := dedup (splitTokens aliasStr)
    let intersection := msgTokens.filter (fun t => aliasTokens.contains t)
    let union := dedup (msgTokens ++ aliasTokens)
    -- `intersection.size / union.size`, via `mkRat` (same value as `/` on `ℚ`
    -- for a non-zero denominator; `0/0` is `NaN` in JS and `0` here, and both
    -- fail the `≥ 0.5` test).
    let jaccard : ℚ := mkRat intersection.length union.length
    if mkRat 1 2 ≤ jaccard ∧ st.2.1 < jaccard then
      (some repoName, jaccard,
        "token overlap (" ++ toFixed2 jaccard ++ "): \"" ++ aliasStr ++ "\"")
    else
      st

/-- Model of `detectProjectContext(message)`: heuristic alias matching.  Returns `null`
immediately when the resume dataset has no `projects` field or the alias
table is empty. -/
def detectProjectContext (projects : Option (List Project))
    (aliases : List (String × String)) (message : String) : Option String :=
  if projects.isNone || aliases.isEmpty then none
  else
    let normalizedMsg := normalizeText message
    let msgTokens := dedup (splitTokens normalizedMsg)
    let st := aliases.foldl (detectStep normalizedMsg msgTokens) (none, 0, "")
    match st.1 with
    | none => none
    | some r => if r == "" then none else some r

/-- C3 counterexample computation: With alias table
`[("a b c", "P1"), ("b", "P2")]` (insertion order) and question `"a b"`, the
alias `"a b c"` first wins by token overlap (Jaccard `2/3 ≥ 0.5`), and the
later *exact substring* match `"b"` cannot displace it: the code compares the
alias length (1) against the length of the decorated reason string
`token overlap (0.67): "a b c"` (29), so the exact match loses and the
function returns `"P1"`.  The claim requires the exact match `"P2"` to win. -/
theorem detectProjectContext_exact_match_loses :
    detectProjectContext (some []) [("a b c", "P1"), ("b", "P2")] "a b" = some "P1" := by
  decide

/-- C10: If the resume dataset is absent (`resumeData?.projects`
undefined) or the alias table is empty, `detectProjectContext` returns `null`
for every question. -/
theorem detectProjectContext_null_without_data :
    (∀ (aliases : List (String × String)) (msg : String),
      detectProjectContext none aliases msg = none) ∧
    (∀ (projects : Option (List Project)) (msg : String),
      detectProjectContext projects [] msg = none) := by
  constructor
  · intro aliases msg
    simp [detectProjectContext]
  · intro projects msg
    simp [detectProjectContext]

/-! ## Index loading (`loadBinaryIndex`)

`loadBinaryIndex` fetches `meta.json`, `vectors.f32` and `texts.txt`,
validating `items.length === count` and `vectors.length === count * dim`.
The three network fetches are modelled as `Except`-valued inputs; the method
is a state transformer that also reports success or the thrown error.
Only the length of the vector buffer participates in validation, so the
loaded buffer is recorded by its length. -/

/-- The parsed, not-yet-validated `meta.json` document. -/
structure RawMeta where
  count : Option Nat
  dim : Option Nat
  items : Option (List ChunkItem)
deriving DecidableEq

/-- Outcomes of the three asset fetches (`fetch` + parse; a non-`ok` response
or a parse failure is a thrown error). -/
structure IndexAssets where
  metaFetch : Except String RawMeta
  vectorsFetch : Except String Nat
  textsFetch : Except String (List Nat)

/-- The index-holding fields of `RAGChatService`. -/
structure StoreState where
  indexLoaded : Bool
  indexMeta : Option RawMeta
  vectors : Option Nat
  textsBuffer : Option (List Nat)
deriving DecidableEq

/-- The guard of the early-return cache path
(`this.indexLoaded && this.indexMeta && this.vectors && this.textsBuffer`). -/
def cacheHit (st : StoreState) : Bool :=
  st.indexLoaded && st.indexMeta.isSome && st.vectors.isSome && st.textsBuffer.isSome

/-- The meta validation `!(!count || !dim || !items || items.length !== count)`. -/
def metaValid (m : RawMeta) : Bool :=
  jsTruthyNat m.count && jsTruthyNat m.dim && m.items.isSome &&
    ((m.items.getD []).length == m.count.getD 0)

/-- Model of `loadBinaryIndex()`: returns the final field state together with the
success/thrown-error outcome.  Assignments happen in source order
(`this.indexMeta` before the meta validation, `this.vectors` before the
length check); the `catch` block sets `this.indexLoaded = false` and
rethrows. -/
def loadBinaryIndex (st : StoreState) (a : IndexAssets) : StoreState × Except String Unit :=
  if cacheHit st then
    (st, Except.ok ())
  else
    match a.metaFetch with
    | Except.error e => ({ st with indexLoaded := false }, Except.error e)
    | Except.ok m =>
      let st1 := { st with indexMeta := some m }
      if !(metaValid m) then
        ({ st1 with indexLoaded := false },
          Except.error "Invalid meta.json: missing count, dim, or items")
      else
        match a.vectorsFetch with
        | Except.error e => ({ st1 with indexLoaded := false }, Except.error e)
        | Except.ok vlen =>
          let st2 := { st1 with vectors := some vlen }
          if vlen ≠ m.count.getD 0 * m.dim.getD 0 then
            ({ st2 with indexLoaded := false }, Except.error "Vector size mismatch")
          else
            match a.textsFetch with
            | Except.error e => ({ st2 with indexLoaded := false }, Except.error e)
            | Except.ok tb =>
              ({ st2 with textsBuffer := some tb, indexLoaded := true }, Except.ok ())

/-- The ready-state invariant: whenever the store reports `indexLoaded`, the
held metadata satisfies `items.length == count` and the held embedding buffer
has length `count * dim`. -/
def ReadyInv (st : StoreState) : Prop :=
  st.indexLoaded = true →
    ∃ m c d its, st.indexMeta = some m ∧ m.count = some c ∧ m.dim = some d ∧
      m.items = some its ∧ its.length = c ∧ st.vectors = some (c * d)

theorem metaValid_dest {m : RawMeta} (h : metaValid m = true) :
    ∃ c d its, m.count = some c ∧ m.dim = some d ∧ m.items = some its ∧
      its.length = c := by
  unfold metaValid at h
  simp only [Bool.and_eq_true] at h
  obtain ⟨⟨⟨hc, hd⟩, hi⟩, hl⟩ := h
  cases hcc : m.count with
  | none => rw [hcc] at hc; exact absurd hc (by simp [jsTruthyNat])
  | some c =>
    cases hdd : m.dim with
    | none => rw [hdd] at hd; exact absurd hd (by simp [jsTruthyNat])
    | some d =>
      cases hii : m.items with
      | none => rw [hii] at hi; exact absurd hi (by simp)
      | some its =>
        refine ⟨c, d, its, rfl, rfl, rfl, ?_⟩
        rw [hcc, hii] at hl
        simpa using hl

/-- C4: Index loading: (a) the ready-state invariant
(`items.length == count` and `vectors.length == count * dim` whenever the
store is ready) is preserved by `loadBinaryIndex`; (b) whenever the load
throws, the final state has `indexLoaded = false` (fail closed, no partial
ready state); (c) on a cache miss, an invalid `meta.json` (missing/zero
`count` or `dim`, missing `items`, or `items.length !== count`) always makes
the load fail; (d) so does a vector buffer whose length differs from
`count * dim`. -/
theorem loadBinaryIndex_fail_closed (st : StoreState) (a : IndexAssets)
    (hInv : ReadyInv st) :
    ReadyInv (loadBinaryIndex st a).1 ∧
    (∀ e, (loadBinaryIndex st a).2 = Except.error e →
      (loadBinaryIndex st a).1.indexLoaded = false) ∧
    (cacheHit st = false → ∀ m, a.metaFetch = Except.ok m → metaValid m = false →
      ∃ e, (loadBinaryIndex st a).2 = Except.error e) ∧
    (cacheHit st = false → ∀ m vlen, a.metaFetch = Except.ok m →
      a.vectorsFetch = Except.ok vlen → vlen ≠ m.count.getD 0 * m.dim.getD 0 →
      ∃ e, (loadBinaryIndex st a).2 = Except.error e) := by
  by_cases hch : cacheHit st = true
  · have heq : loadBinaryIndex st a = (st, Except.ok ()) := by
      rw [loadBinaryIndex, if_pos hch]
    rw [heq]
    refine ⟨hInv, ?_, ?_, ?_⟩
    · intro e he
      exact absurd he (by simp)
    · intro hmiss
      rw [hch] at hmiss
      exact absurd hmiss (by simp)
    · intro hmiss
      rw [hch] at hmiss
      exact absurd hmiss (by simp)
  · cases hm : a.metaFetch with
    | error e =>
      have heq : loadBinaryIndex st a = ({ st with indexLoaded := false }, Except.error e) := by
        rw [loadBinaryIndex, if_neg hch, hm]
      rw [heq]
      refine ⟨fun h => absurd h (by simp), fun e' _ => rfl, ?_, ?_⟩
      · intro _ m hok
        exact absurd hok (by simp)
      · intro _ m vlen hok
        exact absurd hok (by simp)
    | ok m =>
      by_cases hv : metaValid m = true
      · cases hvf : a.vectorsFetch with
        | error e =>
          have heq : loadBinaryIndex st a =
              ({ st with indexMeta := some m, indexLoaded := false }, Except.error e) := by
            rw [loadBinaryIndex, if_neg hch, hm]
            simp only [hv, Bool.not_true, Bool.false_eq_true, if_false, hvf]
          rw [heq]
          refine ⟨fun h => absurd h (by simp), fun e' _ => rfl, ?_, ?_⟩
          · intro _ m' hok hbad
            cases hok
            rw [hv] at hbad
            exact absurd hbad (by simp)
          · intro _ m' vlen hok hvok
            exact absurd hvok (by simp)
        | ok vlen =>
          by_cases hlen : vlen = m.count.getD 0 * m.dim.getD 0
          · cases htf : a.textsFetch with
            | error e =>
              have heq : loadBinaryIndex st a =
                  ({ st with indexMeta := some m, vectors := some vlen, indexLoaded := false }, Except.error e) := by
                rw [loadBinaryIndex, if_neg hch, hm]
                simp only [hv, Bool.not_true, Bool.false_eq_true, if_false, hvf,
                  hlen, ne_eq, not_true_eq_false, htf]
              rw [heq]
              refine ⟨fun h => absurd h (by simp), fun e' _ => rfl, ?_, ?_⟩
              · intro _ m' hok hbad
                cases hok
                rw [hv] at hbad
                exact absurd hbad (by simp)
              · intro _ m' vlen' hok hvok hbad
                cases hok
                cases hvok
                exact absurd hlen hbad
            | ok tb =>
              have heq : loadBinaryIndex st a =
                  ({ st with indexMeta := some m, vectors := some vlen, textsBuffer := some tb, indexLoaded := true }, Except.ok ()) := by
                rw [loadBinaryIndex, if_neg hch, hm]
                simp only [hv, Bool.not_true, Bool.false_eq_true, if_false, hvf,
                  hlen, ne_eq, not_true_eq_false, htf]
              rw [heq]
              refine ⟨?_, fun e' he' => absurd he' (by simp), ?_, ?_⟩
              · intro _
                obtain ⟨c, d, its, hcc, hdd, hii, hll⟩ := metaValid_dest hv
                refine ⟨m, c, d, its, rfl, hcc, hdd, hii, hll, ?_⟩
                show some vlen = some (c * d)
                rw [hlen, hcc, hdd]
                rfl
              · intro _ m' hok hbad
                cases hok
                rw [hv] at hbad
                exact absurd hbad (by simp)
              · intro _ m' vlen' hok hvok hbad
                cases hok
                cases hvok
                exact absurd hlen hbad
          · have heq : loadBinaryIndex st a =
                ({ st with indexMeta := some m, vectors := some vlen, indexLoaded := false }, Except.error "Vector size mismatch") := by
              rw [loadBinaryIndex, if_neg hch, hm]
              simp only [hv, Bool.not_true, Bool.false_eq_true, if_false, hvf,
                hlen, ne_eq, not_false_eq_true, if_true]
            rw [heq]
            refine ⟨fun h => absurd h (by simp), fun e' _ => rfl, ?_, ?_⟩
            · intro _ m' hok hbad
              cases hok
              rw [hv] at hbad
              exact absurd hbad (by simp)
            · intro _ m' vlen' _ _ _
              exact ⟨"Vector size mismatch", rfl⟩
      · have hv' : metaValid m = false := by
          cases h : metaValid m
          · rfl
          · exact absurd h hv
        have heq : loadBinaryIndex st a =
            ({ st with indexMeta := some m, indexLoaded := false },
              Except.error "Invalid meta.json: missing count, dim, or items") := by
          rw [loadBinaryIndex, if_neg hch, hm]
          simp only [hv', Bool.not_false, if_true]
        rw [heq]
        refine ⟨fun h => absurd h (by simp), fun e' _ => rfl, ?_, ?_⟩
        · intro _ m' _ _
          exact ⟨"Invalid meta.json: missing count, dim, or items", rfl⟩
        · intro _ m' vlen' _ _ _
          exact ⟨"Invalid meta.json: missing count, dim, or items", rfl⟩
/-- Witness for C4: a fresh store and a fetch whose `meta.json` lacks `count`. -/
theorem loadBinaryIndex_fail_closed_witness :
    ReadyInv (loadBinaryIndex ⟨false, none, none, none⟩
      ⟨Except.ok ⟨none, some 3, some []⟩, Except.ok 0, Except.ok []⟩).1 ∧
    (∀ e, (loadBinaryIndex ⟨false, none, none, none⟩
      ⟨Except.ok ⟨none, some 3, some []⟩, Except.ok 0, Except.ok []⟩).2 = Except.error e →
      (loadBinaryIndex ⟨false, none, none, none⟩
        ⟨Except.ok ⟨none, some 3, some []⟩, Except.ok 0, Except.ok []⟩).1.indexLoaded = false) ∧
    (cacheHit ⟨false, none, none, none⟩ = false →
      ∀ m, (⟨Except.ok ⟨none, some 3, some []⟩, Except.ok 0, Except.ok []⟩ :
        IndexAssets).metaFetch = Except.ok m → metaValid m = false →
      ∃ e, (loadBinaryIndex ⟨false, none, none, none⟩
        ⟨Except.ok ⟨none, some 3, some []⟩, Except.ok 0, Except.ok []⟩).2 = Except.error e) ∧
    (cacheHit ⟨false, none, none, none⟩ = false →
      ∀ m vlen, (⟨Except.ok ⟨none, some 3, some []⟩, Except.ok 0, Except.ok []⟩ :
        IndexAssets).metaFetch = Except.ok m →
      (⟨Except.ok ⟨none, some 3, some []⟩, Except.ok 0, Except.ok []⟩ :
        IndexAssets).vectorsFetch = Except.ok vlen →
      vlen ≠ m.count.getD 0 * m.dim.getD 0 →
      ∃ e, (loadBinaryIndex ⟨false, none, none, none⟩
        ⟨Except.ok ⟨none, some 3, some []⟩, Except.ok 0, Except.ok []⟩).2 = Except.error e) :=
  loadBinaryIndex_fail_closed ⟨false, none, none, none⟩
    ⟨Except.ok ⟨none, some 3, some []⟩, Except.ok 0, Except.ok []⟩
    (by intro h; exact absurd h (by decide))

/-! ## Tools and the agentic loop (`executeToolCall`, `agenticLoop`)

The chat model is an oracle `llm : List ChatMsg → Except String LLMReply`
mapping the full message set of one invocation to either a reply or a thrown
error; an arbitrary oracle represents an arbitrary sequence of model replies
(each iteration's message list strictly grows, so the oracle may answer each
iteration differently). -/

/-- One role-tagged chat message. -/
structure ChatMsg where
  role : String
  content : String
deriving DecidableEq

/-- One structured tool-call request in a model reply.  The tools take no
arguments; the argument object is carried opaquely (`toolCall.args || {}`). -/
structure ToolCall where
  name : String
  args : String
deriving DecidableEq

/-- A model reply: text plus zero or more tool calls (an absent `tool_calls`
field behaves exactly like an empty list in the loop's guard). -/
structure LLMReply where
  content : String
  tool_calls : List ToolCall
deriving DecidableEq

/-- A registered tool: a name and a synchronous accessor. -/
structure Tool where
  name : String
  run : String → String

/-- The result record of `agenticLoop`. -/
structure AgenticResult where
  text : String
  iterations : Nat
deriving DecidableEq

/-- Model of `executeToolCall(toolName, toolInput)`: look the tool up by name; an
unknown name yields a descriptive error string instead of throwing. -/
def executeToolCall (tools : List Tool) (toolName : String) (toolInput : String) : String :=
  match tools.find? (fun t => t.name == toolName) with
  | none => "Tool \"" ++ toolName ++ "\" not available."
  | some t => t.run toolInput

/-- The labelled tool-result messages appended after a tool-calling reply. -/
def toolResultMsgs (tools : List Tool) (calls : List ToolCall) : List ChatMsg :=
  calls.map (fun tc =>
    ⟨"user", "[Tool Result from " ++ tc.name ++ "]:\n" ++ executeToolCall tools tc.name tc.args⟩)

/-- The final `lastResponse?.content || 'Unable to generate response.'` of the
cap-reached exit. -/
def lastContent (msgs : List ChatMsg) : String :=
  jsOrStr (msgs.getLast?.map ChatMsg.content) "Unable to generate response."

/-- The body of `agenticLoop`, with `fuel = maxIterations - iteration`
remaining loop entries.  Each entry calls the model once on
`[systemPrompt] ++ currentMessages`; a reply with tool calls appends the
assistant text and one labelled result message per requested tool (in request
order) and loops; a tool-free reply returns immediately.  When the fuel runs
out the content of the last accumulated message is returned. -/
def agenticLoopAux (llm : List ChatMsg → Except String LLMReply) (tools : List Tool)
    (systemPrompt : String) : Nat → Nat → List ChatMsg → Except String AgenticResult
  | 0, iteration, msgs => Except.ok ⟨lastContent msgs, iteration⟩
  | fuel + 1, iteration, msgs =>
    match llm (⟨"system", systemPrompt⟩ :: msgs) with
    | Except.error e => Except.error e
    | Except.ok response =>
      if response.tool_calls.isEmpty then
        Except.ok ⟨response.content, iteration + 1⟩
      else
        agenticLoopAux llm tools systemPrompt fuel (iteration + 1)
          (msgs ++ ⟨"assistant", response.content⟩ :: toolResultMsgs tools response.tool_calls)

/-- Model of `agenticLoop(systemPrompt, messages, maxIterations = 3)`. -/
def agenticLoop (llm : List ChatMsg → Except String LLMReply) (tools : List Tool)
    (systemPrompt : String) (messages : List ChatMsg) (maxIterations : Nat := 3) :
    Except String AgenticResult :=
  agenticLoopAux llm tools systemPrompt maxIterations 0 messages

/-- One iteration's message growth when the model keeps requesting tools
(the no-reply/no-tool cases leave the list unchanged; they are only reached
outside the hypotheses of the cap theorem below). -/
def agenticExpand (llm : List ChatMsg → Except String LLMReply) (tools : List Tool)
    (systemPrompt : String) (msgs : List ChatMsg) : List ChatMsg :=
  match llm (⟨"system", systemPrompt⟩ :: msgs) with
  | Except.error _ => msgs
  | Except.ok response =>
    if response.tool_calls.isEmpty then msgs
    else msgs ++ ⟨"assistant", response.content⟩ :: toolResultMsgs tools response.tool_calls

/-- Iterate the expansion step n times. -/
def agenticExpandN (llm : List ChatMsg → Except String LLMReply) (tools : List Tool)
    (systemPrompt : String) : Nat → List ChatMsg → List ChatMsg
  | 0, msgs => msgs
  | n + 1, msgs => agenticExpandN llm tools systemPrompt n (agenticExpand llm tools systemPrompt msgs)

theorem agenticLoopAux_iterations_le (llm : List ChatMsg → Except String LLMReply)
    (tools : List Tool) (systemPrompt : String) :
    ∀ (fuel iteration : Nat) (msgs : List ChatMsg) (r : AgenticResult),
      agenticLoopAux llm tools systemPrompt fuel iteration msgs = Except.ok r →
      r.iterations ≤ iteration + fuel := by
  intro fuel
  induction fuel with
  | zero =>
    intro iteration msgs r hr
    cases hr
    simp
  | succ fuel ih =>
    intro iteration msgs r hr
    rw [agenticLoopAux] at hr
    cases hllm : llm (⟨"system", systemPrompt⟩ :: msgs) with
    | error e => rw [hllm] at hr; exact absurd hr (by simp)
    | ok response =>
      simp only [hllm] at hr
      by_cases hemp : response.tool_calls.isEmpty
      · rw [if_pos hemp] at hr
        cases hr
        show iteration + 1 ≤ iteration + (fuel + 1)
        omega
      · rw [if_neg hemp] at hr
        have := ih (iteration + 1) _ r hr
        omega

theorem agenticLoopAux_cap (llm : List ChatMsg → Except String LLMReply)
    (tools : List Tool) (systemPrompt : String)
    (htools : ∀ ms, ∃ resp, llm ms = Except.ok resp ∧ resp.tool_calls ≠ []) :
    ∀ (fuel iteration : Nat) (msgs : List ChatMsg),
      agenticLoopAux llm tools systemPrompt fuel iteration msgs =
        Except.ok ⟨lastContent (agenticExpandN llm tools systemPrompt fuel msgs),
          iteration + fuel⟩ := by
  intro fuel
  induction fuel with
  | zero =>
    intro iteration msgs
    rfl
  | succ fuel ih =>
    intro iteration msgs
    obtain ⟨resp, hok, hne⟩ := htools (⟨"system", systemPrompt⟩ :: msgs)
    have hemp : resp.tool_calls.isEmpty = false := by
      cases h : resp.tool_calls.isEmpty
      · rfl
      · exact absurd (List.isEmpty_iff.mp h) hne
    rw [agenticLoopAux, hok]
    simp only [hemp, Bool.false_eq_true, if_false]
    rw [ih (iteration + 1)]
    have hexp : agenticExpand llm tools systemPrompt msgs =
        msgs ++ ⟨"assistant", resp.content⟩ :: toolResultMsgs tools resp.tool_calls := by
      rw [agenticExpand, hok]
      simp [hemp]
    rw [agenticExpandN, hexp]
    have harith : iteration + 1 + fuel = iteration + (fuel + 1) := by omega
    rw [harith]

/-- C5: The agentic loop performs at most 3 model calls: whenever it
completes with a result, that result records at most 3 iterations, regardless
of how many tool calls each reply requests; and if every reply requests at
least one tool (so the cap is reached without a tool-free reply), the loop
returns the content of the last accumulated message — a degraded result, not
an error. -/
theorem agenticLoop_cap (llm : List ChatMsg → Except String LLMReply) (tools : List Tool)
    (systemPrompt : String) (messages : List ChatMsg) :
    (∀ r, agenticLoop llm tools systemPrompt messages 3 = Except.ok r → r.iterations ≤ 3) ∧
    ((∀ ms, ∃ resp, llm ms = Except.ok resp ∧ resp.tool_calls ≠ []) →
      agenticLoop llm tools systemPrompt messages 3 =
        Except.ok ⟨lastContent (agenticExpandN llm tools systemPrompt 3 messages), 3⟩) := by
  constructor
  · intro r hr
    simpa using agenticLoopAux_iterations_le llm tools systemPrompt 3 0 messages r hr
  · intro htools
    simpa using agenticLoopAux_cap llm tools systemPrompt htools 3 0 messages

/-- Witness for C5: a model that always answers `"done"` without tools
(1 iteration), and a model that always requests the tool `"get_projects"`
(cap reached, last accumulated message returned). -/
theorem agenticLoop_cap_witness :
    ((⟨"done", 1⟩ : AgenticResult).iterations ≤ 3) ∧
    agenticLoop (fun _ => Except.ok ⟨"partial", [⟨"get_projects", ""⟩]⟩) [] "sys" [] 3 =
      Except.ok ⟨lastContent (agenticExpandN
        (fun _ => Except.ok ⟨"partial", [⟨"get_projects", ""⟩]⟩) [] "sys" 3 []), 3⟩ :=
  ⟨(agenticLoop_cap (fun _ => Except.ok ⟨"done", []⟩) [] "sys" []).1 ⟨"done", 1⟩ rfl,
   (agenticLoop_cap (fun _ => Except.ok ⟨"partial", [⟨"get_projects", ""⟩]⟩) [] "sys" []).2
     (fun _ => ⟨⟨"partial", [⟨"get_projects", ""⟩]⟩, rfl, by decide⟩)⟩

/-! ## Vector normalization (`normalize`)

`normalize(vec)` divides by the L2 norm computed with `Math.sqrt`; real
arithmetic models the idealised semantics. -/

/-- The accumulation loop `for i: norm += vec[i] * vec[i]`. -/
def sumSq (vec : List ℝ) : ℝ :=
  vec.foldl (fun acc x => acc + x * x) 0

/-- Model of `normalize(vec)`: divide by the L2 norm; the zero vector (norm `0`) is
returned unchanged instead of dividing by zero. -/
noncomputable def normalize (vec : List ℝ) : List ℝ :=
  let norm := Real.sqrt (sumSq vec)
  if norm = 0 then vec else vec.map (fun x => x / norm)

theorem foldl_sumSq_shift (l : List ℝ) : ∀ a : ℝ,
    l.foldl (fun acc x => acc + x * x) a = a + sumSq l := by
  induction l with
  | nil => intro a; simp [sumSq]
  | cons y t ih =>
    intro a
    rw [List.foldl_cons, ih]
    have h2 : sumSq (y :: t) = 0 + y * y + sumSq t := by
      rw [sumSq, List.foldl_cons, ih]
    rw [h2]
    ring

theorem sumSq_cons (y : ℝ) (t : List ℝ) : sumSq (y :: t) = y * y + sumSq t := by
  rw [sumSq, List.foldl_cons, foldl_sumSq_shift]
  ring

theorem sumSq_nonneg (l : List ℝ) : 0 ≤ sumSq l := by
  induction l with
  | nil => simp [sumSq]
  | cons y t ih =>
    rw [sumSq_cons]
    have : 0 ≤ y * y := mul_self_nonneg y
    linarith

theorem sumSq_eq_zero_of_all_zero {l : List ℝ} (h : ∀ x ∈ l, x = 0) : sumSq l = 0 := by
  induction l with
  | nil => simp [sumSq]
  | cons y t ih =>
    rw [sumSq_cons, h y (by simp), ih (fun x hx => h x (List.mem_cons_of_mem _ hx))]
    ring

theorem sumSq_pos_of_exists_ne {l : List ℝ} (h : ∃ x ∈ l, x ≠ 0) : 0 < sumSq l := by
  induction l with
  | nil => simp at h
  | cons y t ih =>
    rw [sumSq_cons]
    rcases h with ⟨x, hx, hxne⟩
    rcases List.mem_cons.mp hx with rfl | hxt
    · have h1 : 0 < x * x := mul_self_pos.mpr hxne
      nlinarith [sumSq_nonneg t]
    · have := ih ⟨x, hxt, hxne⟩
      nlinarith [mul_self_nonneg y]

theorem sumSq_map_div (l : List ℝ) (c : ℝ) (hc : c ≠ 0) :
    sumSq (l.map (fun x => x / c)) = sumSq l / (c * c) := by
  induction l with
  | nil => simp [sumSq]
  | cons y t ih =>
    rw [List.map_cons, sumSq_cons, sumSq_cons, ih]
    field_simp

/-- C9: `normalize` is idempotent on non-zero vectors —
`normalize (normalize v) = normalize v` — and maps the zero vector to itself
unchanged (defined, no division by zero). -/
theorem normalize_idempotent_and_zero (v : List ℝ) :
    ((∃ x ∈ v, x ≠ 0) → normalize (normalize v) = normalize v) ∧
    ((∀ x ∈ v, x = 0) → normalize v = v) := by
  constructor
  · intro hnz
    have hS : 0 < sumSq v := sumSq_pos_of_exists_ne hnz
    have hnorm : 0 < Real.sqrt (sumSq v) := Real.sqrt_pos.mpr hS
    have hne : Real.sqrt (sumSq v) ≠ 0 := ne_of_gt hnorm
    have hv1 : normalize v = v.map (fun x => x / Real.sqrt (sumSq v)) := by
      have h0 : normalize v = if Real.sqrt (sumSq v) = 0 then v
          else v.map (fun x => x / Real.sqrt (sumSq v)) := rfl
      rw [h0, if_neg hne]
    have hs2 : sumSq (normalize v) = 1 := by
      rw [hv1, sumSq_map_div v _ hne, Real.mul_self_sqrt (le_of_lt hS)]
      exact div_self (ne_of_gt hS)
    have h1 : normalize (normalize v) = if Real.sqrt (sumSq (normalize v)) = 0 then normalize v
        else (normalize v).map (fun x => x / Real.sqrt (sumSq (normalize v))) := rfl
    rw [h1, hs2, Real.sqrt_one]
    simp
  · intro hz
    have hS : sumSq v = 0 := sumSq_eq_zero_of_all_zero hz
    have h0 : normalize v = if Real.sqrt (sumSq v) = 0 then v
        else v.map (fun x => x / Real.sqrt (sumSq v)) := rfl
    rw [h0, hS, Real.sqrt_zero]
    simp

/-- Witness for C9 at concrete vectors `[3, 4]` (non-zero) and `[0, 0]`
(zero). -/
theorem normalize_idempotent_and_zero_witness :
    normalize (normalize [(3 : ℝ), 4]) = normalize [(3 : ℝ), 4] ∧
    normalize [(0 : ℝ), 0] = [(0 : ℝ), 0] :=
  ⟨(normalize_idempotent_and_zero [(3 : ℝ), 4]).1 ⟨3, by simp, by norm_num⟩,
   (normalize_idempotent_and_zero [(0 : ℝ), 0]).2 (by intro x hx; simpa using hx)⟩

/-! ## Email-link normalization (`normalizeEmails`)

`normalizeEmails` splits on fenced code blocks and, outside them, (0) collects
the e-mail addresses already wrapped in `(mailto:…)`, (1) turns `[email]` not
already followed by `(mailto:` into a markdown link, (2) wraps remaining
word-bounded plain addresses; addresses in the collected set, or whose first
occurrence in the part is preceded by `mailto:`/`](` within 8 characters, are
left as they are.  The three concrete regexes are hand-compiled to scanners
with JavaScript regex semantics (leftmost match, greedy `+`/`{2,}` with
backtracking of the domain `+` at the tld dot, one-character advance on
failure); an explicit fuel argument, always instantiated to more steps than a
scan can take (each step consumes at least one character), keeps the
recursion structural. -/

/-- Model of `[a-zA-Z0-9._%+-]` (e-mail local part). -/
def charL (c : Char) : Bool :=
  c.isAlpha || c.isDigit || c == '.' || c == '_' || c == '%' || c == '+' || c == '-'

/-- Model of `[a-zA-Z0-9.-]` (e-mail domain). -/
def charD (c : Char) : Bool :=
  c.isAlpha || c.isDigit || c == '.' || c == '-'

/-- Model of `[a-zA-Z]` (tld). -/
def charT (c : Char) : Bool := c.isAlpha

/-- Model of `\w` for the purpose of `\b`. -/
def isWordChar (c : Char) : Bool := c.isAlpha || c.isDigit || c == '_'

/-- Backtracking of the greedy domain `[a-zA-Z0-9.-]+` over its maximal run
`dRun`: try the dot position `q` (largest first, as the greedy `+` shrinks),
require at least two letters of tld after it, and accept when the caller's
after-context (`)`, `]` or `\b`) matches what follows.  The greedy
`[a-zA-Z]{2,}` never shrinks: doing so would put a letter where the
after-context requires a non-letter. -/
def tryDots (dRun rest3 : List Char) (afterOk : List Char → Bool) :
    Nat → Option (List Char × List Char × List Char)
  | 0 => none
  | q + 1 =>
    if dRun.getD (q + 1) ' ' == '.' then
      let tld := (dRun.drop (q + 2)).takeWhile charT
      if 2 ≤ tld.length then
        let after := dRun.drop (q + 2 + tld.length) ++ rest3
        if afterOk after then some (dRun.take (q + 1), tld, after)
        else tryDots dRun rest3 afterOk q
      else tryDots dRun rest3 afterOk q
    else tryDots dRun rest3 afterOk q

/-- Match `[a-zA-Z0-9._%+-]+@[a-zA-Z0-9.-]+\.[a-zA-Z]{2,}` at the head of
`cs`, with `afterOk` checking the context that must follow the match.
Returns the matched e-mail characters and the remaining input. -/
def matchEmailAt (afterOk : List Char → Bool) (cs : List Char) :
    Option (List Char × List Char) :=
  let localRun := cs.takeWhile charL
  if localRun.isEmpty then none
  else
    match cs.drop localRun.length with
    | '@' :: rest2 =>
      let dRun := rest2.takeWhile charD
      let rest3 := rest2.drop dRun.length
      match tryDots dRun rest3 afterOk (dRun.length - 1) with
      | none => none
      | some (dom, tld, after) => some (localRun ++ '@' :: (dom ++ '.' :: tld), after)
    | _ => none

/-- The literal `(mailto:`. -/
def mailtoOpen : List Char := "(mailto:".toList

/-- The wrapped form `[email](mailto:email)`. -/
def mailtoWrap (email : List Char) : List Char :=
  '[' :: email ++ ']' :: mailtoOpen ++ email ++ [')']

/-- The pre-scan `\(mailto:(EMAIL)\)` collecting already-linked addresses. -/
def preScanAux (set : List String) : Nat → List Char → List String
  | 0, _ => set
  | _ + 1, [] => set
  | fuel + 1, c :: t =>
    if mailtoOpen.isPrefixOf (c :: t) then
      match matchEmailAt (fun after => after.headD ' ' == ')') ((c :: t).drop 8) with
      | some (email, after) => preScanAux (set ++ [String.mk email]) fuel (after.drop 1)
      | none => preScanAux set fuel t
    else preScanAux set fuel t

/-- Replacement pass 1, `\[(EMAIL)\](?!\(mailto:)`:
wrap `[email]` unless it is already followed by `(mailto:` or the address was
collected by the pre-scan. -/
def r1Scan (set : List String) : Nat → List Char → List Char
  | 0, cs => cs
  | _ + 1, [] => []
  | fuel + 1, c :: t =>
    if c == '[' then
      match matchEmailAt (fun after => after.headD ' ' == ']') t with
      | some (email, after) =>
        let rest := after.drop 1
        if mailtoOpen.isPrefixOf rest then
          c :: r1Scan set fuel t
        else if set.contains (String.mk email) then
          c :: (email ++ ']' :: r1Scan set fuel rest)
        else
          mailtoWrap email ++ r1Scan set fuel rest
      | none => c :: r1Scan set fuel t
    else c :: r1Scan set fuel t

/-- Model of `\b` between the previous character and a match starting with `c`. -/
def boundaryBefore (prev : Option Char) (c : Char) : Bool :=
  if isWordChar c then
    match prev with
    | none => true
    | some p => !isWordChar p
  else
    match prev with
    | none => false
    | some p => isWordChar p

/-- Model of `\b` after a match (which always ends in a letter). -/
def boundaryAfter (after : List Char) : Bool :=
  match after with
  | [] => true
  | c :: _ => !isWordChar c

/-- First index at which `e` occurs in a list (`String.prototype.indexOf`). -/
def indexOfList (e : List Char) (i : Nat) : List Char → Option Nat
  | [] => if e.isEmpty then some i else none
  | c :: t => if e.isPrefixOf (c :: t) then some i else indexOfList e (i + 1) t

/-- Model of `before.endsWith('](')`. -/
def endsWithBracketParen (before : List Char) : Bool :=
  match before.reverse with
  | '(' :: ']' :: _ => true
  | _ => false

/-- The replacement decision of pass 2 for an address `email`: skip when it
is in the pre-scan set; otherwise inspect the 8 characters before the *first*
occurrence of `email` in the whole pass-2 input `S` (this is what
`result.indexOf(match)` computes) and skip when they contain `mailto:` or end
with `](`. -/
def r2Wraps (S : List Char) (set : List String) (email : List Char) : Bool :=
  if set.contains (String.mk email) then false
  else
    match indexOfList email 0 S with
    | none => true
    | some idx =>
      let before := (S.take idx).drop (idx - 8)
      !(strContainsAux "mailto:".toList before || endsWithBracketParen before)

/-- Replacement pass 2, `\b(EMAIL)\b`: wrap word-bounded plain addresses,
subject to `r2Wraps`.  `S` is the full pass-2 input, `prev` the character
before the current position. -/
def r2Scan (S : List Char) (set : List String) : Nat → Option Char → List Char → List Char
  | 0, _, cs => cs
  | _ + 1, _, [] => []
  | fuel + 1, prev, c :: t =>
    if boundaryBefore prev c then
      match matchEmailAt boundaryAfter (c :: t) with
      | some (email, after) =>
        let lastc := email.getLast?.getD 'a'
        if r2Wraps S set email then
          mailtoWrap email ++ r2Scan S set fuel (some lastc) after
        else
          email ++ r2Scan S set fuel (some lastc) after
      | none => c :: r2Scan S set fuel (some c) t
    else c :: r2Scan S set fuel (some c) t

/-- Processing of one non-fence part: pre-scan, pass 1, pass 2. -/
def processPart (part : List Char) : List Char :=
  let set := preScanAux [] (part.length + 1) part
  let afterR1 := r1Scan set (part.length + 1) part
  r2Scan afterR1 set (afterR1.length + 1) none afterR1

/-- The backtick character (code 96). -/
def backtick : Char := Char.ofNat 96

/-- Find the first triple-backtick: returns the text before it and the text
after it. -/
def findTriple (acc : List Char) : List Char → Option (List Char × List Char)
  | [] => none
  | c :: t =>
    if c == backtick then
      match t with
      | c2 :: c3 :: rest =>
        if c2 == backtick && c3 == backtick then some (acc.reverse, rest)
        else findTriple (c :: acc) t
      | _ => none
    else findTriple (c :: acc) t

/-- Model of `text.split(/(```[\s\S]*?```)/)`: alternating non-fence / fence parts
(the lazy group matches from one triple backtick to the next; an unpaired
opening fence is left in the final non-fence part). -/
def splitFencesAux : Nat → List Char → List (List Char)
  | 0, cs => [cs]
  | fuel + 1, cs =>
    match findTriple [] cs with
    | none => [cs]
    | some (before, afterOpen) =>
      match findTriple [] afterOpen with
      | none => [cs]
      | some (content, afterClose) =>
        before ::
          (backtick :: backtick :: backtick :: content ++ [backtick, backtick, backtick]) ::
          splitFencesAux fuel afterClose

/-- Map over the alternating parts, processing the non-fence ones
(`index % 2 === 0`) and keeping fences verbatim, then join. -/
def joinProcessed (processEven : Bool) : List (List Char) → List Char
  | [] => []
  | p :: rest => (if processEven then processPart p else p) ++ joinProcessed (!processEven) rest

/-- Model of `normalizeEmails(text)`. -/
def normalizeEmails (text : String) : String :=
  String.mk (joinProcessed true (splitFencesAux (text.length + 1) text.toList))

/-- C8 failing computation: `normalizeEmails` is *not* idempotent, in
contradiction with its own header comment (`idempotent - safe to call
multiple times`).  On `"a@b.co%b@c.de"` the first application wraps the two
adjacent addresses `a@b.co` and `%b@c.de` (a word boundary separates `o`
from `%`).  The inserted `[` then sits before `%`, so in the second
application the word boundary falls after the `%` and the scanner matches
the sub-address `b@c.de`, which is not in the collected mailto set and whose
first occurrence is not preceded by `mailto:` or `](` within 8 characters —
so it is wrapped again, inside the existing link. -/
theorem normalizeEmails_not_idempotent :
    normalizeEmails "a@b.co%b@c.de" =
      "[a@b.co](mailto:a@b.co)[%b@c.de](mailto:%b@c.de)" ∧
    normalizeEmails "[a@b.co](mailto:a@b.co)[%b@c.de](mailto:%b@c.de)" ≠
      "[a@b.co](mailto:a@b.co)[%b@c.de](mailto:%b@c.de)" := by
  constructor
  · decide
  · decide

/-! ## The query orchestrator (`query`, `queryFallback`)

`query` composes scope detection, query embedding, scoped retrieval, context
assembly and the agentic loop, with a `try/catch` that routes any thrown
error to `queryFallback`; `queryFallback` routes its own errors to a static
apology string.  The external services are oracles:

* `embed` — the result of `embedder.embedQuery` (a raw embedding vector or a
  thrown error);
* `chat` — `llmWithTools.invoke`, as in the agentic loop;
* `detectLLM` — the `llm.invoke` reply content inside
  `detectProjectContextViaLLM`, as a function of the prompt;
* `storage` — `sessionStorage.getItem('conversationSummary') || ''`.

The fire-and-forget `updateConversationSummaryAsync` call swallows all of
its errors (`try { … .catch(() => {}) } catch {}`) and does not contribute
to the returned value, so it does not appear in the result model. -/

/-- UTF-8 decoding of `texts.txt` slices (`new TextDecoder('utf-8')`).
Invalid sequences become U+FFFD; the exact replacement-character positions
for malformed input are approximated, and no claim depends on them. -/
def utf8Decode : List Nat → List Char
  | [] => []
  | b :: rest =>
    if b < 0x80 then Char.ofNat b :: utf8Decode rest
    else if b < 0xC2 then Char.ofNat 0xFFFD :: utf8Decode rest
    else if b < 0xE0 then
      match rest with
      | b2 :: rest2 =>
        if 0x80 ≤ b2 ∧ b2 < 0xC0 then
          Char.ofNat ((b - 0xC0) * 64 + (b2 - 0x80)) :: utf8Decode rest2
        else Char.ofNat 0xFFFD :: utf8Decode rest2
      | [] => [Char.ofNat 0xFFFD]
    else if b < 0xF0 then
      match rest with
      | b2 :: b3 :: rest3 =>
        if (0x80 ≤ b2 ∧ b2 < 0xC0) ∧ (0x80 ≤ b3 ∧ b3 < 0xC0) then
          Char.ofNat ((b - 0xE0) * 4096 + (b2 - 0x80) * 64 + (b3 - 0x80)) :: utf8Decode rest3
        else Char.ofNat 0xFFFD :: utf8Decode rest3
      | _ => [Char.ofNat 0xFFFD]
    else
      match rest with
      | b2 :: b3 :: b4 :: rest4 =>
        if (0x80 ≤ b2 ∧ b2 < 0xC0) ∧ (0x80 ≤ b3 ∧ b3 < 0xC0) ∧ (0x80 ≤ b4 ∧ b4 < 0xC0) then
          Char.ofNat ((b - 0xF0) * 262144 + (b2 - 0x80) * 4096 + (b3 - 0x80) * 64 + (b4 - 0x80))
            :: utf8Decode rest4
        else Char.ofNat 0xFFFD :: utf8Decode rest4
      | _ => [Char.ofNat 0xFFFD]

/-- JSON string escaping (the characters that can occur in titles here). -/
def jsonEscapeChar (c : Char) : List Char :=
  if c == '"' then ['\\', '"']
  else if c == '\\' then ['\\', '\\']
  else if c == '\n' then ['\\', 'n']
  else if c == '\r' then ['\\', 'r']
  else if c == '\t' then ['\\', 't']
  else [c]

def jsonQuote (s : String) : String :=
  "\"" ++ String.mk (s.toList.foldr (fun c acc => jsonEscapeChar c ++ acc) []) ++ "\""

/-- Model of `JSON.stringify({ project: p.title, repo: p.repo_name })` — `undefined`
fields are omitted. -/
def projectEntryJson (p : Project) : String :=
  "\x7b" ++ String.intercalate ","
    ((match p.title with
      | some t => ["\"project\":" ++ jsonQuote t]
      | none => []) ++
     (match p.repo_name with
      | some r => ["\"repo\":" ++ jsonQuote r]
      | none => [])) ++ "\x7d"

/-- Model of `resumeData?.projects ? JSON.stringify(projects.map(…)) : '[]'`. -/
def projectListJson (projects : Option (List Project)) : String :=
  match projects with
  | none => "[]"
  | some ps => "[" ++ String.intercalate "," (ps.map projectEntryJson) ++ "]"

/-- Model of `history.slice(-n)`. -/
def takeLast {β : Type} (n : Nat) (l : List β) : List β :=
  l.drop (l.length - n)

/-- One retrieved source document of the query result. -/
structure SourceDoc where
  pageContent : String
  metadata : ChunkItem

/-- The result record of `query`/`queryFallback`. -/
structure QueryResult where
  text : String
  sourceDocuments : List SourceDoc

/-- The service-instance fields that `query` reads.  The `has…` booleans
model the nullness of `embedder`, `llm` and `llmWithTools`. -/
structure RAGState where
  initialized : Bool
  indexLoaded : Bool
  hasEmbedder : Bool
  hasLLM : Bool
  hasLLMWithTools : Bool
  count : Nat
  dim : Nat
  items : List ChunkItem
  vectors : Nat → ℝ
  textsBuffer : List Nat
  repoNames : List String
  projectAliases : List (String × String)
  resumeProjects : Option (List Project)
  conversationSummary : String
  tools : List Tool

/-- The external-call outcomes available to one `query` invocation. -/
structure QueryOracles where
  embed : Except String (List ℝ)
  chat : List ChatMsg → Except String LLMReply
  detectLLM : String → Except String String
  storage : Except String String

/-- Model of `getChunkText(itemIndex)`: bounds-checked slice of `texts.txt`, decoded. -/
def getChunkText (st : RAGState) (itemIndex : Nat) : String :=
  match st.items[itemIndex]? with
  | none => ""
  | some item =>
    String.mk (utf8Decode ((st.textsBuffer.drop item.text_offset).take item.text_length))

/-- Model of `formatChunks(chunkIndices)`: citation headers plus 1200-character
truncated chunk bodies, joined by the separator.  (An out-of-range index
would throw in JS; it is defaulted here and unreachable while
`items.length == count` holds.) -/
def formatChunks (st : RAGState) (chunkIndices : List Nat) : String :=
  String.intercalate "\n\n---\n\n" (chunkIndices.map (fun idx =>
    let item := (st.items[idx]?).getD default
    let projectName := jsOrStr (itemRepo item) "Unknown"
    let filePath := jsOrStr item.file_path "N/A"
    let sourceHeader := "[Source: " ++ projectName ++ " | " ++ filePath ++
      (if jsTruthyNat item.start_line && jsTruthyNat item.end_line then
        " | L" ++ toString (item.start_line.getD 0) ++ "–" ++ toString (item.end_line.getD 0)
      else "") ++ "]"
    let chunkText := getChunkText st idx
    let truncated := if 1200 < chunkText.length then chunkText.take 1200 ++ "..." else chunkText
    sourceHeader ++ "\n" ++ truncated))

/-- Model of `buildSystemPrompt(retrievedContext)` — the grounded-path system prompt
template, verbatim. -/
def buildSystemPrompt (projects : Option (List Project)) (retrievedContext : String) : String :=
  String.intercalate "\n"
    ["You are the official AI Portfolio Assistant for **Gauransh Sawhney**, a Full-stack / AI / ML software engineer and graduate student.",
     "      Your role is to represent Gauransh professionally, accurately, and conservatively.",
     "",
     "      ## � Context Recognition",
     "      **This Website / This Project refers to:** \"portfolio-chat\" (the AI-powered portfolio RAG system you're running in)",
     "      When users ask about \"this website\", \"this project\", \"portfolio chat\", or the portfolio assistant itself, they're asking about the portfolio-chat project.",
     "      Use the get_projects tool to reference its details if needed.",
     "",
     "      ## �🔒 Core Rules",
     "      1. **Ground everything:** Only cite information explicitly available via tools, retrieved context, or your training knowledge about public projects.",
     "      2. **Be honest:** If you don't have a detail, say \"I don't have that specific information.\"",
     "      3. **Cite sources:** When referencing code or technical details, mention the project name and source.",
     "      4. **Stay professional:** Confident and enthusiastic, but never exaggerated.",
     "      5. **Be concise:** Keep responses to 3–4 sentences unless asked for more.",
     "      6. **No speculation:** Don't infer or assume beyond what's explicitly available.",
     "",
     "      ## 🛠️ Available Tools",
     "      Call tools to access resume details on-demand:",
     "      - **get_experience**: Work history and positions",
     "      - **get_education**: Degrees, schools, GPA",
     "      - **get_projects**: Project titles, descriptions, repos",
     "      - **get_skills**: Technical skills by category",
     "      - **get_certifications**: Licenses and credentials",
     "      - **get_contact_info**: Email, LinkedIn, GitHub, socials",
     "",
     "      ## 📐 Retrieved Context (Code & Architecture)",
     "      " ++ (if retrievedContext == "" then "No code context available for this query."
                 else retrievedContext),
     "",
     "       ## 🚦 Navigation & Action Rules",
     "          Append **EXACTLY ONE** action tag at the end **ONLY IF** the response clearly maps to a navigation intent.",
     "          If no navigation intent applies, append **nothing**.",
     "",
     "          **Education keywords:** \"Degree\", \"University\", \"GPA\"  ",
     "          → <<ACTION:SCROLL_EDUCATION>>",
     "",
     "          **Experience keywords:** \"Work\", \"Job\", \"Internship\"  ",
     "          → <<ACTION:SCROLL_EXPERIENCE>>",
     "",
     "          **Projects keywords:** \"Projects\", \"GitHub\", \"Code\", or " ++
       projectListJson projects ++ "  ",
     "          → <<ACTION:SCROLL_PROJECTS>>  ",
     "",
     "          **Certifications keywords:** \"Licenses\", \"Certifications\", \"Credentials\", \"Certificate\"  ",
     "          → <<ACTION:SCROLL_CERTIFICATIONS>>",
     "",
     "          **Contact keywords:** \"Contact\", \"Email\", \"LinkedIn\"  ",
     "          →    <<ACTION:SCROLL_CONTACT>>",
     "",
     "          **DO NOT narrate actions.**  ",
     "          Correct:  ",
     "          \"Gauransh has worked on projects such as Image Coloration. <<ACTION:SCROLL_PROJECTS>>\"",
     "",
     "          Incorrect:  ",
     "          \"Let me scroll you to his projects. <<ACTION:SCROLL_PROJECTS>>\""]

/-- Model of `getConversationSummary()`: the in-memory summary, falling back to
session storage; storage errors degrade to the in-memory value. -/
def getConversationSummary (st : RAGState) (o : QueryOracles) : String :=
  if st.conversationSummary == "" then
    match o.storage with
    | Except.ok stored => stored
    | Except.error _ => st.conversationSummary
  else st.conversationSummary

/-- The prompt of `detectProjectContextViaLLM`. -/
def detectLLMPrompt (projects : Option (List Project)) (userMessage : String) : String :=
  "User query: \"" ++ userMessage ++ "\"\n\nProject-to-repo mapping: " ++
    projectListJson projects ++
    "\n\nWhich repo does the user's query refer to? \nRespond with ONLY the exact repo name from the \"Available repos\" list above, or \"NONE\" if no repo is mentioned.\nDo not add explanation."

/-- Model of `detectProjectContextViaLLM(userMessage)`: model fallback of project
detection.  Returns the reply only when it is an exact known repo name and
not the sentinel `"NONE"`; its own errors are caught and become `null`. -/
def detectProjectContextViaLLM (st : RAGState) (o : QueryOracles)
    (userMessage : String) : Option String :=
  if !st.hasLLM || st.repoNames.isEmpty then none
  else
    match o.detectLLM (detectLLMPrompt st.resumeProjects userMessage) with
    | Except.error _ => none
    | Except.ok content =>
      let response := content.trim
      if response != "NONE" && st.repoNames.contains response then some response
      else none

/-- The two-tier scope resolution of `query`: heuristic aliases first, model
fallback when that yields `null`. -/
def detectedRepo (st : RAGState) (o : QueryOracles) (userMessage : String) : Option String :=
  match detectProjectContext st.resumeProjects st.projectAliases userMessage with
  | some r => some r
  | none => detectProjectContextViaLLM st o userMessage

/-- The recent history window with the rolling summary prepended when one
exists (`history.slice(-6)`, then `unshift` of the summary message). -/
def historyWithSummary (st : RAGState) (o : QueryOracles) (history : List ChatMsg) :
    List ChatMsg :=
  let recentHistory := takeLast 6 history
  let summary := getConversationSummary st o
  if summary == "" then recentHistory
  else ⟨"system", "Conversation Summary:\n" ++ summary⟩ :: recentHistory

/-- The body of `query`'s `try` block (steps 2–6 of the grounded path):
scope already resolved by `detectedRepo`, then embed, retrieve (scoped,
`k = 10`), assemble context (empty on zero hits), run the agentic loop, and
post-process the reply.  Any `Except.error` is a thrown exception. -/
noncomputable def queryGrounded (st : RAGState) (o : QueryOracles) (userMessage : String)
    (history : List ChatMsg) : Except String QueryResult :=
  let targetRepo := detectedRepo st o userMessage
  match o.embed with
  | Except.error e => Except.error e
  | Except.ok v =>
    let queryVector := fun j => (normalize v).getD j 0
    let topKResults := retrieveTopK st.count st.dim st.items st.vectors queryVector targetRepo 10
    let topKIndices := topKResults.map Hit.index
    let formattedContext := if topKResults.isEmpty then "" else formatChunks st topKIndices
    let sourceDocuments : List SourceDoc :=
      if topKResults.isEmpty then []
      else topKIndices.map (fun idx => ⟨getChunkText st idx, (st.items[idx]?).getD default⟩)
    let systemPrompt := buildSystemPrompt st.resumeProjects formattedContext
    match agenticLoop o.chat st.tools systemPrompt
        (historyWithSummary st o history ++ [⟨"user", userMessage⟩]) 3 with
    | Except.error e => Except.error e
    | Except.ok ar => Except.ok ⟨normalizeEmails ar.text, sourceDocuments⟩

/-- The fallback system prompt, verbatim. -/
def fallbackSystemPrompt : String :=
  "You are Gauransh Sawhney's portfolio assistant. \n        Answer questions about Gauransh's experience, education, projects, and skills.\n        Use the available tools to access resume details on demand.\n        Be professional, concise, and honest. If you don't have info, say so."

/-- The static apology returned when even the fallback path throws. -/
def apologyText : String :=
  "I'm having trouble responding right now. Please try again."

/-- The body of `queryFallback`'s `try` block: tool-only answer path with the
last 4 history turns and no retrieved grounding. -/
def queryFallbackCore (st : RAGState) (o : QueryOracles) (userMessage : String)
    (history : List ChatMsg) : Except String QueryResult :=
  if !st.hasLLMWithTools then Except.error "LLM not initialized"
  else
    match agenticLoop o.chat st.tools fallbackSystemPrompt
        (takeLast 4 history ++ [⟨"user", userMessage⟩]) 3 with
    | Except.error e => Except.error e
    | Except.ok ar => Except.ok ⟨normalizeEmails ar.text, []⟩

/-- Model of `queryFallback(userMessage, history)`: its `catch` converts any thrown
error into the static apology result. -/
def queryFallback (st : RAGState) (o : QueryOracles) (userMessage : String)
    (history : List ChatMsg) : QueryResult :=
  match queryFallbackCore st o userMessage history with
  | Except.ok r => r
  | Except.error _ => ⟨apologyText, []⟩

/-- The readiness guard of `query`
(`!embedder || !llmWithTools || !initialized || !indexLoaded`). -/
def readyGuard (st : RAGState) : Bool :=
  st.hasEmbedder && st.hasLLMWithTools && st.initialized && st.indexLoaded

/-- Model of `query(userMessage, history)`: not-ready states and any exception in the
grounded path go to `queryFallback`. -/
noncomputable def query (st : RAGState) (o : QueryOracles) (userMessage : String)
    (history : List ChatMsg) : QueryResult :=
  if !readyGuard st then queryFallback st o userMessage history
  else
    match queryGrounded st o userMessage history with
    | Except.ok r => r
    | Except.error _ => queryFallback st o userMessage history

/-- C6: Error routing of the orchestrator: when the grounded answer path
(steps 2–6: scope resolution through post-processing) throws, `query` returns
exactly the unscoped fallback answer — no error reaches the caller; and when
the fallback path itself throws, `queryFallback` returns the static apology
string, never a raw error. -/
theorem query_error_routing (st : RAGState) (o : QueryOracles) (userMessage : String)
    (history : List ChatMsg) :
    (∀ e, queryGrounded st o userMessage history = Except.error e →
      query st o userMessage history = queryFallback st o userMessage history) ∧
    (∀ e, queryFallbackCore st o userMessage history = Except.error e →
      queryFallback st o userMessage history = ⟨apologyText, []⟩) := by
  constructor
  · intro e he
    rw [query]
    by_cases hr : readyGuard st = true
    · rw [hr]
      simp only [Bool.not_true, Bool.false_eq_true, if_false]
      rw [he]
    · have hr' : readyGuard st = false := by
        cases h : readyGuard st
        · rfl
        · exact absurd h hr
      rw [hr']
      simp only [Bool.not_false, if_true]
  · intro e he
    rw [queryFallback, he]

/-- Oracles whose embedding and model calls all fail, for the C6 witness. -/
def errorProneOracles : QueryOracles :=
  ⟨Except.error "embedding failed", fun _ => Except.error "model down",
   fun _ => Except.error "model down", Except.ok ""⟩

/-- A ready-looking state whose `llmWithTools` is nonetheless absent, for the
C6 witness (both failure layers fire). -/
def c6State : RAGState :=
  ⟨true, true, true, false, false, 0, 0, [], fun _ => 0, [], [], [], none, "", []⟩

/-- Witness for C6: the grounded path throws at the embedding call and
`query` returns the fallback result; the fallback path throws too and yields
the apology string. -/
theorem query_error_routing_witness :
    query c6State errorProneOracles "hello" [] =
      queryFallback c6State errorProneOracles "hello" [] ∧
    queryFallback c6State errorProneOracles "hello" [] = ⟨apologyText, []⟩ :=
  ⟨(query_error_routing c6State errorProneOracles "hello" []).1 "embedding failed" rfl,
   (query_error_routing c6State errorProneOracles "hello" []).2 "LLM not initialized" rfl⟩

/-- C7: Zero-hit scoped retrieval: when scope detection yields a project
and the scoped search returns no hits, `query` proceeds with *no grounding* —
the system prompt is built from the empty context, the returned
`sourceDocuments` are empty, and the answer comes from the tool-calling loop
alone; if even that throws, the result is the (unscoped, tool-only) fallback
answer.  In no case is an error surfaced. -/
theorem query_zero_hits_no_grounding (st : RAGState) (o : QueryOracles)
    (userMessage : String) (history : List ChatMsg) (repo : String) (v : List ℝ)
    (hready : readyGuard st = true)
    (hdet : detectedRepo st o userMessage = some repo)
    (hemb : o.embed = Except.ok v)
    (hzero : retrieveTopK st.count st.dim st.items st.vectors
      (fun j => (normalize v).getD j 0) (some repo) 10 = []) :
    query st o userMessage history =
      match agenticLoop o.chat st.tools (buildSystemPrompt st.resumeProjects "")
          (historyWithSummary st o history ++ [⟨"user", userMessage⟩]) 3 with
      | Except.ok ar => ⟨normalizeEmails ar.text, []⟩
      | Except.error _ => queryFallback st o userMessage history := by
  have hg : queryGrounded st o userMessage history =
      match agenticLoop o.chat st.tools (buildSystemPrompt st.resumeProjects "")
          (historyWithSummary st o history ++ [⟨"user", userMessage⟩]) 3 with
      | Except.ok ar => Except.ok ⟨normalizeEmails ar.text, []⟩
      | Except.error e => Except.error e := by
    rw [queryGrounded, hdet, hemb]
    simp only [hzero, List.isEmpty_nil, if_true, List.map_nil]
    cases agenticLoop o.chat st.tools (buildSystemPrompt st.resumeProjects "")
        (historyWithSummary st o history ++ [⟨"user", userMessage⟩]) 3 with
    | error e => rfl
    | ok ar => rfl
  rw [query, hready]
  simp only [Bool.not_true, Bool.false_eq_true, if_false]
  rw [hg]
  cases agenticLoop o.chat st.tools (buildSystemPrompt st.resumeProjects "")
      (historyWithSummary st o history ++ [⟨"user", userMessage⟩]) 3 with
  | error e => rfl
  | ok ar => rfl

/-- A ready single-chunk state whose only chunk belongs to `"beta"` while the
question mentions `"alpha"`, for the C7 witness. -/
def c7State : RAGState :=
  ⟨true, true, true, true, true, 1, 1,
   [⟨some "beta", none, none, none, none, 0, 0⟩],
   fun _ => 0, [], ["alpha", "beta"], [("alpha", "alpha")], some [], "", []⟩

/-- Healthy oracles for the C7 witness. -/
def c7Oracles : QueryOracles :=
  ⟨Except.ok [1], fun _ => Except.ok ⟨"All good.", []⟩,
   fun _ => Except.ok "NONE", Except.ok ""⟩

/-- Witness for C7: the question `"alpha"` resolves to scope `"alpha"`, the
only chunk belongs to `"beta"`, so the scoped search is empty and `query`
answers through the tool loop with no grounding and no source documents. -/
theorem query_zero_hits_no_grounding_witness :
    query c7State c7Oracles "alpha" [] =
      match agenticLoop c7Oracles.chat c7State.tools
          (buildSystemPrompt c7State.resumeProjects "")
          (historyWithSummary c7State c7Oracles [] ++ [⟨"user", "alpha"⟩]) 3 with
      | Except.ok ar => ⟨normalizeEmails ar.text, []⟩
      | Except.error _ => queryFallback c7State c7Oracles "alpha" [] :=
  query_zero_hits_no_grounding c7State c7Oracles "alpha" [] "alpha" [1] rfl rfl rfl rfl

end PortfolioChat
